import Mathlib

/-!
Verification of the minigrep command-line search utility.

The program (src/lib.rs, src/main.rs) is embedded shallowly:

* `Config.new` embeds `Config::new` from src/lib.rs.  The Rust function
  consumes an iterator of argument strings; here the arguments are a
  `List String`.  The environment lookup `env::var("CASE_INSENSITIVE")`
  is embedded as an `Option String` parameter holding the value of that
  variable (`none` when the variable is unset); `is_err()` on the lookup
  becomes `Option.isNone`.
* `str_lines` embeds Rust `str::lines`: it splits at each line feed,
  strips a carriage return that immediately precedes a line feed, and
  omits a final empty segment after a trailing line feed.  Strings are
  modelled as `List Char` (a Rust `&str` is a sequence of unicode scalar
  values, which is what Lean `Char` is).
* `str_contains` embeds Rust `str::contains` for a string pattern:
  substring containment, implemented by checking the pattern as a
  possible beginning of every suffix.
* `to_lowercase` embeds Rust `str::to_lowercase`, including its one
  context-dependent rule: the capital sigma `Σ` lowercases to the final
  sigma `ς` when preceded by a cased character and not followed by one,
  and to `σ` otherwise; every other character goes through the
  character-level table `char_lower`.  The Unicode tables are
  represented on the fragment the claims and counterexamples exercise:
  `char_lower` lowers basic Latin (via `Char.toLower`) and the Greek
  capitals `Α`–`Ρ` and `Τ`–`Ω` (code point + 32) and fixes every other
  character; `is_cased` holds on the basic Latin and Greek letters; the
  `Case_Ignorable` set is modelled as empty, so the sigma context is
  the directly adjacent characters.  One-to-many character mappings
  (such as `İ`) are outside the represented fragment; they are
  context-free in Rust and so cannot affect the sigma counterexample or
  the sigma-free superset theorem below.
* `search` and `search_case_insensitive` embed the two scanning
  functions of src/lib.rs.  The Rust case-insensitive scan binds the
  lowered query once before the loop; the embedding inlines the same
  value at each use, which is equal.
* `run` embeds `run` from src/lib.rs.  `fs::read_to_string` is embedded
  as a function parameter `fs : String → Except String String` mapping a
  file name to its contents or the rendered I/O error (file missing,
  invalid UTF-8).  The lines `run` prints to standard output are
  returned as the success payload; on failure nothing is printed, which
  the model renders by returning the error without any lines.
* `main_model` embeds `main` from src/main.rs: it reports argument
  errors as `Problem parsing arguments: <msg>` and run errors as
  `Application error: <msg>`, both via `println!` (standard output), and
  exits with code 1; on success it prints the matching lines and exits
  with code 0.  `MainResult` records the lines written to standard
  output, the lines written to standard error, and the exit code.
-/

/-- The `Config` struct of src/lib.rs. -/
structure Config where
  query : String
  filename : String
  case_sensitive : Bool
deriving DecidableEq

/-- Embedding of `Config::new` (src/lib.rs).  The first argument (the
program name) is discarded; the next two become `query` and `filename`;
`case_sensitive` is true exactly when `CASE_INSENSITIVE` is unset. -/
def Config.new (args : List String) (env_CASE_INSENSITIVE : Option String) :
    Except String Config :=
  match args with
  | [] => .error "Didn\x27t get a query string"
  | [_] => .error "Didn\x27t get a query string"
  | [_, _] => .error "Didn\x27t get a file name"
  | _ :: query :: filename :: _ =>
    .ok { query := query, filename := filename,
          case_sensitive := env_CASE_INSENSITIVE.isNone }

/-- Embedding of Rust `str::contains` with a string pattern: does
`needle` occur in the second argument as a contiguous substring? -/
def str_contains (needle : List Char) : List Char → Bool
  | [] => needle.isEmpty
  | c :: rest => needle.isPrefixOf (c :: rest) || str_contains needle rest

/-- One step of `str_lines`: finish the line accumulated in reverse in
`acc`, stripping a carriage return that immediately precedes the line
feed that ended the line (Rust `str::lines` CRLF handling). -/
def stripLineEnd (acc : List Char) : List Char :=
  match acc with
  | '\r' :: rest => rest.reverse
  | _ => acc.reverse

/-- Worker for `str_lines`; `acc` holds the current line reversed. -/
def linesAux : List Char → List Char → List (List Char)
  | acc, [] => if acc.isEmpty then [] else [acc.reverse]
  | acc, c :: rest =>
    if c = '\n' then stripLineEnd acc :: linesAux [] rest
    else linesAux (c :: acc) rest

/-- Embedding of Rust `str::lines`: split at line feeds, strip a
carriage return before each line feed, no empty final line after a
trailing line feed. -/
def str_lines (s : List Char) : List (List Char) :=
  linesAux [] s

/-- Embedding of `search` (src/lib.rs): the lines of `contents` that
contain `query`, in order. -/
def search (query contents : List Char) : List (List Char) :=
  (str_lines contents).filter (fun line => str_contains query line)

/-- Modelled fragment of the Unicode `Cased` property used by the
final-sigma rule of Rust `str::to_lowercase`: the basic Latin letters
and the Greek letter blocks (which include the lowercase final sigma).
Other cased code points are outside the represented fragment. -/
def is_cased (c : Char) : Bool :=
  decide ((65 ≤ c.toNat ∧ c.toNat ≤ 90) ∨ (97 ≤ c.toNat ∧ c.toNat ≤ 122) ∨
    (0x391 ≤ c.toNat ∧ c.toNat ≤ 0x3A9) ∨ (0x3B1 ≤ c.toNat ∧ c.toNat ≤ 0x3C9))

/-- Modelled fragment of the Unicode `Case_Ignorable` property: empty.
The inputs of the claims and counterexamples contain no case-ignorable
character, so the sigma context is decided by the directly adjacent
characters, as below. -/
def case_ignorable (_ : Char) : Bool := false

/-- Rust's `case_ignorable_then_cased` applied to the text following a
capital sigma: skip case-ignorable characters, then ask whether a cased
character follows. -/
def final_sigma_follows (rest : List Char) : Bool :=
  match rest.dropWhile case_ignorable with
  | [] => false
  | c :: _ => is_cased c

/-- Character-level lowercase table on the represented fragment: the
Greek capitals `Α`–`Ρ` and `Τ`–`Ω` move down by 32 code points (the
capital sigma between the two ranges is handled contextually by
`to_lowercase_aux`, never by this table), basic Latin lowers via
`Char.toLower`, and every other character is fixed. -/
def char_lower (c : Char) : Char :=
  if (0x391 ≤ c.toNat ∧ c.toNat ≤ 0x3A1) ∨ (0x3A4 ≤ c.toNat ∧ c.toNat ≤ 0x3A9) then
    Char.ofNat (c.toNat + 32)
  else c.toLower

/-- Worker for `to_lowercase`, mirroring the loop of Rust
`str::to_lowercase`: a capital sigma becomes the final sigma `ς` when
the preceding character is cased (tracked in `prev_cased`, initially
false) and no cased character follows, and `σ` otherwise; every other
character goes through the character-level table. -/
def to_lowercase_aux : Bool → List Char → List Char
  | _, [] => []
  | prev_cased, c :: rest =>
    if c = 'Σ' then
      (if prev_cased && !(final_sigma_follows rest) then 'ς' else 'σ')
        :: to_lowercase_aux (is_cased c) rest
    else
      char_lower c :: to_lowercase_aux (is_cased c) rest

/-- Embedding of Rust `str::to_lowercase`, including its context
dependence at the capital sigma. -/
def to_lowercase (s : List Char) : List Char :=
  to_lowercase_aux false s

/-- Embedding of `search_case_insensitive` (src/lib.rs): lowercase the
query and each line before the containment check; the returned lines
keep their original text. -/
def search_case_insensitive (query contents : List Char) : List (List Char) :=
  (str_lines contents).filter
    (fun line => str_contains (to_lowercase query) (to_lowercase line))

/-- Embedding of `run` (src/lib.rs).  `fs` models `fs::read_to_string`;
the success payload is the list of lines printed to standard output. -/
def run (fs : String → Except String String) (config : Config) :
    Except String (List (List Char)) :=
  match fs config.filename with
  | .error e => .error e
  | .ok contents =>
    let results :=
      if config.case_sensitive then
        search config.query.data contents.data
      else
        search_case_insensitive config.query.data contents.data
    .ok results

/-- The lines `run` prints to standard output: the matching lines on
success, nothing when the read failed. -/
def run_output (fs : String → Except String String) (config : Config) :
    List (List Char) :=
  match run fs config with
  | .error _ => []
  | .ok results => results

/-- Observable outcome of one process run: lines written to standard
output, lines written to standard error, and the exit code. -/
structure MainResult where
  stdout : List String
  stderr : List String
  exit_code : Nat
deriving DecidableEq

/-- Embedding of `main` (src/main.rs).  Both diagnostics are emitted
with `println!`, hence appear on standard output; nothing in the program
writes to standard error. -/
def main_model (args : List String) (env_CASE_INSENSITIVE : Option String)
    (fs : String → Except String String) : MainResult :=
  match Config.new args env_CASE_INSENSITIVE with
  | .error err =>
    { stdout := ["Problem parsing arguments: " ++ err], stderr := [], exit_code := 1 }
  | .ok config =>
    match run fs config with
    | .error e =>
      { stdout := ["Application error: " ++ e], stderr := [], exit_code := 1 }
    | .ok results =>
      { stdout := results.map (fun l => String.mk l), stderr := [], exit_code := 0 }

/-- A file system in which every path is missing, rendered with the
error text the repository unit tests expect for a missing file. -/
def fs_missing : String → Except String String :=
  fun _ => .error "No such file or directory (os error 2)"

/-- A file system holding one two-line file named `poem.txt`. -/
def fs_poem : String → Except String String :=
  fun name =>
    if name = "poem.txt" then .ok "Rust:\nPick three." else
    .error "No such file or directory (os error 2)"

/-- The boolean `str_contains` decides substring containment in the
sense of `List.IsInfix`. -/
theorem str_contains_iff (needle hay : List Char) :
    str_contains needle hay = true ↔ needle <:+: hay := by
  induction hay with
  | nil =>
    simp [str_contains, List.isEmpty_iff, List.infix_nil]
  | cons c t ih =>
    simp only [str_contains, Bool.or_eq_true, List.isPrefixOf_iff_prefix, ih]
    exact (List.infix_cons_iff).symm

/-- Reading back the scalar value used to build a valid character. -/
theorem toNat_ofNatAux (n : Nat) (h : n.isValidChar) :
    (Char.ofNatAux n h).toNat = n := rfl

/-- Lowercasing maps no character other than the line feed to the line
feed. -/
theorem toLower_eq_newline {c : Char} (h : c.toLower = '\n') : c = '\n' := by
  unfold Char.toLower at h
  simp only [] at h
  by_cases hc : c.toNat ≥ 65 ∧ c.toNat ≤ 90
  · rw [if_pos hc] at h
    exfalso
    have hv : (c.toNat + 32).isValidChar := Or.inl (by omega)
    rw [Char.ofNat, dif_pos hv] at h
    have h2 := congrArg Char.toNat h
    rw [toNat_ofNatAux] at h2
    have h3 : Char.toNat '\n' = 10 := rfl
    omega
  · rwa [if_neg hc] at h

/-- The character-level table maps no character other than the line
feed to the line feed. -/
theorem char_lower_eq_newline {c : Char} (h : char_lower c = '\n') : c = '\n' := by
  unfold char_lower at h
  by_cases hg : (0x391 ≤ c.toNat ∧ c.toNat ≤ 0x3A1) ∨ (0x3A4 ≤ c.toNat ∧ c.toNat ≤ 0x3A9)
  · rw [if_pos hg] at h
    exfalso
    have hv : (c.toNat + 32).isValidChar := Or.inl (by omega)
    rw [Char.ofNat, dif_pos hv] at h
    have h2 := congrArg Char.toNat h
    rw [toNat_ofNatAux] at h2
    have h3 : Char.toNat '\n' = 10 := rfl
    omega
  · rw [if_neg hg] at h
    exact toLower_eq_newline h

/-- Lowercasing emits exactly one character per input character: the
contextual sigma output or the table output, then recursion with the
casedness of the consumed character. -/
theorem to_lowercase_aux_cons (b : Bool) (c : Char) (t : List Char) :
    ∃ d, to_lowercase_aux b (c :: t) = d :: to_lowercase_aux (is_cased c) t ∧
      (d = char_lower c ∨ (c = 'Σ' ∧ (d = 'ς' ∨ d = 'σ'))) := by
  by_cases hc : c = 'Σ'
  · subst hc
    cases hB : (b && !(final_sigma_follows t)) with
    | true => exact ⟨'ς', by simp [to_lowercase_aux, hB], Or.inr ⟨rfl, Or.inl rfl⟩⟩
    | false => exact ⟨'σ', by simp [to_lowercase_aux, hB], Or.inr ⟨rfl, Or.inr rfl⟩⟩
  · exact ⟨char_lower c, by simp [to_lowercase_aux, hc], Or.inl rfl⟩

/-- Lowercasing neither creates nor destroys line feeds. -/
theorem newline_mem_to_lowercase_aux :
    ∀ (l : List Char) (b : Bool), '\n' ∈ to_lowercase_aux b l ↔ '\n' ∈ l := by
  intro l
  induction l with
  | nil => intro b; simp [to_lowercase_aux]
  | cons c t ih =>
    intro b
    obtain ⟨d, hd, hcase⟩ := to_lowercase_aux_cons b c t
    rw [hd, List.mem_cons, List.mem_cons, ih]
    constructor
    · rintro (h1 | h2)
      · left
        rcases hcase with h3 | ⟨h3, h4⟩
        · subst h3
          exact (char_lower_eq_newline h1.symm).symm
        · exfalso
          rcases h4 with h5 | h5 <;> (subst h5; exact absurd h1 (by decide))
      · exact Or.inr h2
    · rintro (h1 | h2)
      · left
        rcases hcase with h3 | ⟨h3, h4⟩
        · subst h3
          subst h1
          decide
        · exfalso
          rw [h3] at h1
          exact absurd h1 (by decide)
      · exact Or.inr h2

/-- On a sigma-free string lowercasing is the plain character-wise
table, independently of the context flag. -/
theorem to_lowercase_aux_no_sigma :
    ∀ (q : List Char) (b : Bool), 'Σ' ∉ q → to_lowercase_aux b q = q.map char_lower := by
  intro q
  induction q with
  | nil => intro b _; rfl
  | cons c t ih =>
    intro b hq
    have hc : c ≠ 'Σ' := fun h => hq (by rw [h]; exact List.mem_cons_self 'Σ' t)
    have ht : 'Σ' ∉ t := fun h => hq (List.mem_cons_of_mem c h)
    simp only [to_lowercase_aux, if_neg hc, List.map_cons, ih (is_cased c) ht]

/-- A sigma-free block at the front of the input lowercases to its
character-wise image at the front of the output. -/
theorem to_lowercase_aux_front :
    ∀ (q : List Char) (b : Bool) (y : List Char), 'Σ' ∉ q →
      ∃ v, to_lowercase_aux b (q ++ y) = q.map char_lower ++ v := by
  intro q
  induction q with
  | nil => intro b y _; exact ⟨to_lowercase_aux b y, rfl⟩
  | cons c t ih =>
    intro b y hq
    have hc : c ≠ 'Σ' := fun h => hq (by rw [h]; exact List.mem_cons_self 'Σ' t)
    have ht : 'Σ' ∉ t := fun h => hq (List.mem_cons_of_mem c h)
    obtain ⟨v, hv⟩ := ih (is_cased c) y ht
    refine ⟨v, ?_⟩
    simp only [List.cons_append, to_lowercase_aux, if_neg hc, List.map_cons]
    exact congrArg (char_lower c :: ·) hv

/-- A sigma-free block anywhere in the input lowercases to its
character-wise image somewhere in the output: each character left of it
contributes exactly one output character, so the block's image stays
contiguous. -/
theorem to_lowercase_aux_append :
    ∀ (x : List Char) (b : Bool) (q y : List Char), 'Σ' ∉ q →
      ∃ u v, to_lowercase_aux b (x ++ (q ++ y)) = u ++ (q.map char_lower ++ v) := by
  intro x
  induction x with
  | nil =>
    intro b q y hq
    obtain ⟨v, hv⟩ := to_lowercase_aux_front q b y hq
    exact ⟨[], v, by simpa using hv⟩
  | cons c x ih =>
    intro b q y hq
    obtain ⟨d, hd, _⟩ := to_lowercase_aux_cons b c (x ++ (q ++ y))
    obtain ⟨u, v, huv⟩ := ih (is_cased c) q y hq
    refine ⟨d :: u, v, ?_⟩
    rw [List.cons_append, hd, huv, List.cons_append]

/-- Finishing a line only drops characters. -/
theorem mem_stripLineEnd {x : Char} {acc : List Char}
    (h : x ∈ stripLineEnd acc) : x ∈ acc := by
  unfold stripLineEnd at h
  split at h
  · simp at h
    simp [h]
  · simpa using h

/-- No produced line contains a line feed, provided the accumulator
holds none. -/
theorem linesAux_no_newline :
    ∀ (cs acc l : List Char), '\n' ∉ acc → l ∈ linesAux acc cs → '\n' ∉ l := by
  intro cs
  induction cs with
  | nil =>
    intro acc l hacc hl
    simp only [linesAux] at hl
    split at hl
    · simp at hl
    · simp at hl
      subst hl
      simpa using hacc
  | cons c rest ih =>
    intro acc l hacc hl
    simp only [linesAux] at hl
    split at hl
    · rcases List.mem_cons.mp hl with h1 | h2
      · subst h1
        intro hx
        exact hacc (mem_stripLineEnd hx)
      · exact ih [] l (by simp) h2
    · rename_i hc
      refine ih (c :: acc) l ?_ hl
      intro hx
      rcases List.mem_cons.mp hx with h1 | h2
      · exact hc h1.symm
      · exact hacc h2

/-- No line produced by `str_lines` contains a line feed. -/
theorem no_newline_in_lines {l contents : List Char}
    (h : l ∈ str_lines contents) : '\n' ∉ l :=
  linesAux_no_newline contents [] l (by simp) h

/-- The empty pattern is contained in every string. -/
theorem str_contains_nil (hay : List Char) : str_contains [] hay = true := by
  cases hay <;> simp [str_contains]

/-- When the read fails, `run` propagates exactly that error. -/
theorem run_eq_error {fs : String → Except String String} {cfg : Config}
    {e : String} (h : fs cfg.filename = .error e) : run fs cfg = .error e := by
  simp [run, h]

/-- C1: for every contents string and query that occurs in at least one
line, the case-sensitive `search` returns exactly the lines containing
the query as a contiguous substring (`List.IsInfix`), as a filter of the
line sequence — hence in original file order and with the original line
text unchanged — and the result is a sublist of the lines of the
contents. -/
theorem search_returns_exactly_matching_lines (query contents : List Char)
    (_h : ∃ line ∈ str_lines contents, query <:+: line) :
    search query contents
      = (str_lines contents).filter (fun line => decide (query <:+: line)) ∧
    List.Sublist (search query contents) (str_lines contents) := by
  constructor
  · unfold search
    apply List.filter_congr
    intro line _
    rw [Bool.eq_iff_iff]
    simp [str_contains_iff]
  · exact List.filter_sublist _

/-- Witness for C1 at the doc-example input of src/lib.rs. -/
theorem search_returns_exactly_matching_lines_witness :
    (∃ line ∈ str_lines "RU\nfast\nDuct".data, "st".data <:+: line) ∧
    (search "st".data "RU\nfast\nDuct".data
      = (str_lines "RU\nfast\nDuct".data).filter
          (fun line => decide ("st".data <:+: line)) ∧
    List.Sublist (search "st".data "RU\nfast\nDuct".data) (str_lines "RU\nfast\nDuct".data)) :=
  ⟨by decide, search_returns_exactly_matching_lines _ _ (by decide)⟩

/-- C2 counterexample: for query `Σ` and contents `ΑΣ` the
case-sensitive search returns the single line but the case-insensitive
search does not, because lowercasing is context-dependent at the
capital sigma: the query alone lowercases to `σ` (no preceding cased
character) while the sigma of the line becomes the final sigma `ς`
(preceded by the cased `Α`, followed by nothing), and `ας` does not
contain `σ`.  So the case-insensitive result set is not a superset of
the case-sensitive one. -/
theorem case_insensitive_misses_capital_sigma_match :
    "ΑΣ".data ∈ search "Σ".data "ΑΣ".data ∧
    "ΑΣ".data ∉ search_case_insensitive "Σ".data "ΑΣ".data := by
  decide

/-- C2 amended: for every query that does not contain the capital sigma
`Σ` — the one character Rust lowercases context-dependently — every
line returned by the case-sensitive search is also returned by the
case-insensitive search for the same query and contents. -/
theorem search_ci_superset_no_capital_sigma (query contents line : List Char)
    (hq : 'Σ' ∉ query) (h : line ∈ search query contents) :
    line ∈ search_case_insensitive query contents := by
  unfold search at h
  unfold search_case_insensitive
  rw [List.mem_filter] at h ⊢
  refine ⟨h.1, ?_⟩
  have h2 := (str_contains_iff _ _).mp h.2
  rw [str_contains_iff]
  obtain ⟨s, t, hst⟩ := h2
  rw [List.append_assoc] at hst
  obtain ⟨u, v, huv⟩ := to_lowercase_aux_append s false query t hq
  refine ⟨u, v, ?_⟩
  unfold to_lowercase
  rw [← hst, huv, to_lowercase_aux_no_sigma query false hq, List.append_assoc]

/-- Witness for the amended C2 on a concrete sigma-free query. -/
theorem search_ci_superset_no_capital_sigma_witness :
    ('Σ' ∉ "st".data ∧ "fast".data ∈ search "st".data "RU\nfast".data) ∧
    "fast".data ∈ search_case_insensitive "st".data "RU\nfast".data :=
  ⟨⟨by decide, by decide⟩,
   search_ci_superset_no_capital_sigma "st".data "RU\nfast".data "fast".data
     (by decide) (by decide)⟩

/-- C8: the empty query matches every line, in both scan modes. -/
theorem empty_query_returns_all_lines (contents : List Char) :
    search [] contents = str_lines contents ∧
    search_case_insensitive [] contents = str_lines contents := by
  constructor
  · unfold search
    rw [List.filter_eq_self]
    intro line _
    exact str_contains_nil line
  · unfold search_case_insensitive to_lowercase
    rw [List.filter_eq_self]
    intro line _
    exact str_contains_nil _

/-- C10: a query containing a line feed matches no line, in either scan
mode, because the lines produced by splitting the buffer contain no
line terminator. -/
theorem newline_query_never_matches (query contents : List Char)
    (h : '\n' ∈ query) :
    search query contents = [] ∧ search_case_insensitive query contents = [] := by
  constructor
  · unfold search
    rw [List.filter_eq_nil_iff]
    intro line hline hcont
    have hinf := (str_contains_iff _ _).mp hcont
    exact no_newline_in_lines hline (hinf.subset h)
  · unfold search_case_insensitive
    rw [List.filter_eq_nil_iff]
    intro line hline hcont
    have hinf := (str_contains_iff _ _).mp hcont
    have h1 : '\n' ∈ to_lowercase query := by
      unfold to_lowercase
      exact (newline_mem_to_lowercase_aux query false).mpr h
    have h2 : '\n' ∈ to_lowercase line := hinf.subset h1
    unfold to_lowercase at h2
    exact no_newline_in_lines hline
      ((newline_mem_to_lowercase_aux line false).mp h2)

/-- Witness for C10 at a query that is exactly one line feed. -/
theorem newline_query_never_matches_witness :
    '\n' ∈ "\n".data ∧
    (search "\n".data "a\nb".data = [] ∧
     search_case_insensitive "\n".data "a\nb".data = []) :=
  ⟨by decide, newline_query_never_matches _ _ (by decide)⟩

/-- C3: `Config.new` fails with the missing-query error exactly when no
second argument is present, fails with the missing-file-name error
exactly when a second but no third argument is present, and in either
failure case the whole program run is independent of the file system
(no file is touched). -/
theorem config_new_error_cases (args : List String) (env : Option String) :
    (Config.new args env = .error "Didn\x27t get a query string" ↔
      args.length ≤ 1) ∧
    (Config.new args env = .error "Didn\x27t get a file name" ↔
      args.length = 2) ∧
    (args.length ≤ 2 → ∀ fs₁ fs₂,
      main_model args env fs₁ = main_model args env fs₂) := by
  match args with
  | [] =>
    refine ⟨by simp [Config.new], by simp [Config.new], ?_⟩
    intro _ fs₁ fs₂
    rfl
  | [a] =>
    refine ⟨by simp [Config.new], by simp [Config.new], ?_⟩
    intro _ fs₁ fs₂
    rfl
  | [a, b] =>
    refine ⟨by simp [Config.new], by simp [Config.new], ?_⟩
    intro _ fs₁ fs₂
    rfl
  | a :: b :: c :: rest =>
    refine ⟨by simp [Config.new], by simp [Config.new], ?_⟩
    intro hlen
    simp at hlen

/-- Witness for C3 at the argument lists of the repository unit tests. -/
theorem config_new_error_cases_witness :
    Config.new ["minigrep"] none = .error "Didn\x27t get a query string" ∧
    Config.new ["minigrep", "nobody"] none = .error "Didn\x27t get a file name" ∧
    main_model ["minigrep"] none fs_missing = main_model ["minigrep"] none fs_poem :=
  ⟨(config_new_error_cases ["minigrep"] none).1.mpr (by decide),
   (config_new_error_cases ["minigrep", "nobody"] none).2.1.mpr (by decide),
   (config_new_error_cases ["minigrep"] none).2.2 (by decide) fs_missing fs_poem⟩

/-- C4: whenever `Config.new` succeeds, `case_sensitive` is false
exactly when `CASE_INSENSITIVE` is set (to any value; presence, not
content, decides), and true when it is unset. -/
theorem case_sensitive_iff_env_unset (args : List String) (env : Option String)
    (cfg : Config) (h : Config.new args env = .ok cfg) :
    (cfg.case_sensitive = false ↔ env.isSome = true) ∧
    cfg.case_sensitive = env.isNone := by
  match args with
  | [] => simp [Config.new] at h
  | [a] => simp [Config.new] at h
  | [a, b] => simp [Config.new] at h
  | a :: b :: c :: rest =>
    simp only [Config.new] at h
    cases h
    cases env <;> simp

/-- Witness for C4: set and unset environment variable on the same
argument list. -/
theorem case_sensitive_iff_env_unset_witness :
    ((Config.mk "nobody" "poem.txt" false).case_sensitive = false ↔
      (Option.some "1").isSome = true) ∧
    (Config.mk "nobody" "poem.txt" true).case_sensitive = (Option.none (α := String)).isNone :=
  ⟨(case_sensitive_iff_env_unset ["minigrep", "nobody", "poem.txt"] (some "1")
      (Config.mk "nobody" "poem.txt" false) rfl).1,
   (case_sensitive_iff_env_unset ["minigrep", "nobody", "poem.txt"] none
      (Config.mk "nobody" "poem.txt" true) rfl).2⟩

/-- C5: when the file read fails, `run` returns exactly that error and
prints no line; a search with zero matches is not an error: `run`
succeeds with empty output. -/
theorem run_error_propagation_and_empty_success
    (fs : String → Except String String) (cfg : Config) :
    (∀ e, fs cfg.filename = .error e →
      run fs cfg = .error e ∧ run_output fs cfg = []) ∧
    (∀ contents, fs cfg.filename = .ok contents →
      (if cfg.case_sensitive then search cfg.query.data contents.data
       else search_case_insensitive cfg.query.data contents.data) = [] →
      run fs cfg = .ok [] ∧ run_output fs cfg = []) := by
  constructor
  · intro e he
    have hr := run_eq_error he
    exact ⟨hr, by simp [run_output, hr]⟩
  · intro contents hc hs
    have hr : run fs cfg = .ok [] := by
      simp [run, hc, hs]
    exact ⟨hr, by simp [run_output, hr]⟩

/-- Witness for C5: a missing file propagates the read error with no
output, and a zero-match search on an existing file succeeds with empty
output. -/
theorem run_error_propagation_and_empty_success_witness :
    (run fs_missing (Config.mk "nobody" "poem.txt" true)
        = .error "No such file or directory (os error 2)" ∧
      run_output fs_missing (Config.mk "nobody" "poem.txt" true) = []) ∧
    (run fs_poem (Config.mk "nobody" "poem.txt" true) = .ok [] ∧
      run_output fs_poem (Config.mk "nobody" "poem.txt" true) = []) :=
  ⟨(run_error_propagation_and_empty_success fs_missing
      (Config.mk "nobody" "poem.txt" true)).1 _ rfl,
   (run_error_propagation_and_empty_success fs_poem
      (Config.mk "nobody" "poem.txt" true)).2 "Rust:\nPick three." rfl (by decide)⟩

/-- C6 counterexample: at a concrete failing input the diagnostic line
appears on standard output and standard error stays empty, refuting the
claim that failures are reported on standard error rather than standard
output (src/main.rs uses `println!` for both diagnostics). -/
theorem failure_diagnostic_not_on_stderr :
    (main_model ["minigrep"] none fs_missing).stderr = [] ∧
    (main_model ["minigrep"] none fs_missing).stdout
      = ["Problem parsing arguments: Didn\x27t get a query string"] ∧
    (main_model ["minigrep"] none fs_missing).exit_code = 1 :=
  ⟨rfl, rfl, rfl⟩

/-- C6 amended: on every failure the program writes its one-line
diagnostic — `Problem parsing arguments: <message>` for argument errors,
`Application error: <message>` for runtime errors — to standard output
(standard error stays empty), and exits with status 1. -/
theorem failure_diagnostic_on_stdout (args : List String) (env : Option String)
    (fs : String → Except String String) :
    (∀ err, Config.new args env = .error err →
      main_model args env fs
        = ⟨["Problem parsing arguments: " ++ err], [], 1⟩) ∧
    (∀ cfg e, Config.new args env = .ok cfg → fs cfg.filename = .error e →
      main_model args env fs = ⟨["Application error: " ++ e], [], 1⟩) := by
  constructor
  · intro err h
    simp [main_model, h]
  · intro cfg e h1 h2
    simp [main_model, h1, run_eq_error h2]

/-- Witness for the amended C6: both failure shapes at concrete
inputs. -/
theorem failure_diagnostic_on_stdout_witness :
    main_model ["minigrep"] none fs_missing
      = ⟨["Problem parsing arguments: " ++ "Didn\x27t get a query string"], [], 1⟩ ∧
    main_model ["minigrep", "nobody", "gone.txt"] none fs_missing
      = ⟨["Application error: " ++ "No such file or directory (os error 2)"], [], 1⟩ :=
  ⟨(failure_diagnostic_on_stdout ["minigrep"] none fs_missing).1 _ rfl,
   (failure_diagnostic_on_stdout ["minigrep", "nobody", "gone.txt"] none fs_missing).2
      (Config.mk "nobody" "gone.txt" true) _ rfl rfl⟩

/-- C7 counterexample: `Config::new` performs no emptiness validation,
so an empty second argument yields a successfully constructed
configuration whose `query` field is the empty string, refuting the
claimed non-emptiness invariant. -/
theorem config_fields_may_be_empty :
    Config.new ["minigrep", "", "poem.txt"] none
      = .ok (Config.mk "" "poem.txt" true) ∧
    (Config.mk "" "poem.txt" true).query.length = 0 :=
  ⟨rfl, rfl⟩

/-- C7 amended: whenever `Config.new` succeeds, `query` and `filename`
are exactly the second and third argument strings — which may be empty —
and `case_sensitive` is fixed at construction to the absence of
`CASE_INSENSITIVE` (the embedding, like the Rust struct, offers no
operation that mutates it afterwards). -/
theorem config_fields_verbatim (args : List String) (env : Option String)
    (cfg : Config) (h : Config.new args env = .ok cfg) :
    3 ≤ args.length ∧ cfg.query = args.getD 1 "" ∧
    cfg.filename = args.getD 2 "" ∧ cfg.case_sensitive = env.isNone := by
  match args with
  | [] => simp [Config.new] at h
  | [a] => simp [Config.new] at h
  | [a, b] => simp [Config.new] at h
  | a :: b :: c :: rest =>
    simp only [Config.new] at h
    cases h
    refine ⟨by simp, rfl, rfl, rfl⟩

/-- Witness for the amended C7 at the unit-test argument list. -/
theorem config_fields_verbatim_witness :
    3 ≤ (["minigrep", "nobody", "poem.txt"] : List String).length ∧
    (Config.mk "nobody" "poem.txt" true).query
      = (["minigrep", "nobody", "poem.txt"] : List String).getD 1 "" ∧
    (Config.mk "nobody" "poem.txt" true).filename
      = (["minigrep", "nobody", "poem.txt"] : List String).getD 2 "" ∧
    (Config.mk "nobody" "poem.txt" true).case_sensitive
      = (Option.none (α := String)).isNone :=
  config_fields_verbatim ["minigrep", "nobody", "poem.txt"] none
    (Config.mk "nobody" "poem.txt" true) rfl

/-- C9: any argument list with at least three elements makes
`Config.new` succeed, with the second element as query and the third as
filename; all later elements are ignored (the result does not depend on
them). -/
theorem extra_arguments_ignored (a q f : String) (rest : List String)
    (env : Option String) :
    Config.new (a :: q :: f :: rest) env
      = .ok (Config.mk q f env.isNone) := rfl
